import Mathlib

/-!
Verification of the magpylib `Collection` core (magpylib/_lib/classes/collection.py):
the collection registry, the rigid-transform broadcaster and the field-superposition
evaluator.  Real-valued field data is modelled over `ℚ` (exact arithmetic standing in
for the float computations, whose rounding behaviour is out of scope); a raised Python
exception is modelled by `Except.error`.
-/

namespace Magpylib

/-- A 3-vector of (exact) coordinates, standing in for a numpy `arr3`. -/
structure Vec3 where
  x : ℚ
  y : ℚ
  z : ℚ
deriving DecidableEq

instance : Add Vec3 := ⟨fun u v => ⟨u.x + v.x, u.y + v.y, u.z + v.z⟩⟩

instance : Sub Vec3 := ⟨fun u v => ⟨u.x - v.x, u.y - v.y, u.z - v.z⟩⟩

/-- The zero 3-vector `[0, 0, 0]`. -/
def vzero : Vec3 := ⟨0, 0, 0⟩

/-- Result of a Python arithmetic aggregation: either the plain `int` that
`sum` starts from (only ever `0` here), or a 3-vector.  `sum([])` in Python
returns the `int` `0`, not a vector, so `Collection.getB` needs this type. -/
inductive PyNum where
  | scalar (n : ℤ)
  | vec (v : Vec3)
deriving DecidableEq

/-- An exception raised by a member's field capability (e.g. a singular
evaluation point); the core treats it as opaque. -/
structure FieldErr where
  code : ℕ
deriving DecidableEq

/-- A field-source collaborator as consumed by the collection core: `getB` is the
pose-dependent `evaluateFieldAt` capability of the member (`s.getB(pos)`), which
either returns a field vector or raises (`Except.error`).  The kind-specific
geometry and the pose are internal to the member and opaque to the core. -/
structure Source where
  getB : Vec3 → Except FieldErr Vec3

/-- A Python list comprehension `[f(a) for a in l]` over fallible calls:
elements are evaluated left to right and the first raised exception aborts
the whole comprehension. -/
def listComp (f : α → Except ε β) : List α → Except ε (List β)
  | [] => .ok []
  | a :: as =>
    match f a with
    | .error e => .error e
    | .ok b =>
      match listComp f as with
      | .error e => .error e
      | .ok bs => .ok (b :: bs)

/-- Python `sum(l)` over a list of 3-vectors: it folds `+` starting from the
`int` `0`, so the empty list yields the scalar `0` while a non-empty list
yields the vector sum (numpy `0 + v = v` absorbs the integer start value). -/
def pySum : List Vec3 → PyNum
  | [] => .scalar 0
  | v :: vs => .vec (vs.foldl (· + ·) v)

/-- The component-wise sum of a list of 3-vectors (the specification's
"component-wise vector sum over all members"). -/
def vecSum (l : List Vec3) : Vec3 :=
  ⟨(l.map Vec3.x).sum, (l.map Vec3.y).sum, (l.map Vec3.z).sum⟩

/-- An ordered group of member references.  `sources` is the Python attribute
`self.sources`; the element type is a parameter because the registry operations
use only reference identity while the field evaluator uses the field capability. -/
structure Collection (α : Type) where
  sources : List α

/-- `Collection.getB` (collection.py line 230): the comprehension
`[s.getB(pos) for s in self.sources]` followed by `sum`.  A member exception
propagates; an empty collection returns the Python scalar `0`. -/
def Collection.getB (col : Collection Source) (pos : Vec3) : Except FieldErr PyNum :=
  match listComp (fun s => s.getB pos) col.sources with
  | .error e => .error e
  | .ok fields => .ok (pySum fields)

/-- Modelled from the spec: the member batch capability `s.getBsweep(pos, ...)`
(`evaluateFieldBatch`, defined on the source classes outside `src/`) returns one
field vector per query point, in input order, each equal to that member's
`evaluateFieldAt` at the point; a failing evaluation raises. -/
def Source.getBsweep (s : Source) (pos : List Vec3) : Except FieldErr (List Vec3) :=
  listComp s.getB pos

/-- `Collection.getBsweep` (collection.py line 212): first the comprehension
`calcFields = [s.getBsweep(pos, ...) for s in self.sources]`, then for each
position index `p` the loop summing `calcFields[src][p]` component-wise starting
from `px = py = pz = 0`.  The `assert all(isPosVector(item) for item in pos)`
guard always passes here because query points are 3-vectors by type. -/
def Collection.getBsweep (col : Collection Source) (pos : List Vec3) :
    Except FieldErr (List Vec3) :=
  match listComp (fun s => s.getBsweep pos) col.sources with
  | .error e => .error e
  | .ok calcFields =>
    .ok ((List.range pos.length).map (fun p =>
      calcFields.foldl (fun acc f => acc + f.getD p vzero) vzero))

/-- The `dupWarning` argument as a Python value: the Python code tests it with
`dupWarning is True`, an identity check that only the boolean `True` passes.
`pyBool true` is Python `True`, `pyBool false` is `False`, and `other n` stands
for any non-boolean object (e.g. the truthy `1`). -/
inductive DupFlag where
  | pyBool (b : Bool)
  | other (n : ℕ)
deriving DecidableEq

/-- Modelled from the spec: `addUniqueSource` (magpylib/_lib/utility.py, not under
`src/`) appends the source to the member list unless the same reference is already
present, in which case it warns and skips it (the spec records warn-and-skip, not
raise, as the source behaviour for a forbidden duplicate). -/
def addUniqueSource [DecidableEq α] (s : α) (sourcesList : List α) : List α :=
  if s ∈ sourcesList then sourcesList else sourcesList ++ [s]

/-- Modelled from the spec: `addListToCollection` (magpylib/_lib/utility.py, not
under `src/`) appends every element of the input list to the member list in order,
applying the duplicate policy to each element as it is considered: with the check
enabled an already-present reference is skipped, otherwise elements are appended
unconditionally. -/
def addListToCollection [DecidableEq α] (sourcesList inputList : List α)
    (dupWarning : DupFlag) : List α :=
  if dupWarning = .pyBool true then
    inputList.foldl (fun acc s => addUniqueSource s acc) sourcesList
  else
    sourcesList ++ inputList

/-- One positional argument to `Collection(...)` or `addSources`: a single source,
a whole `Collection` (`type(s) == Collection` branch), or a list/tuple of sources
(the `isinstance(s, list) or isinstance(s, tuple)` branch — list and tuple take
the same code path, so one constructor models both).  An argument of any other
type fails the `assert isSource(s)` guard and is excluded by typing. -/
inductive Arg (α : Type) where
  | src (s : α)
  | col (c : Collection α)
  | lst (l : List α)

/-- The body of the `for s in sources:` loop shared verbatim by
`Collection.__init__` (line 84) and `Collection.addSources` (line 199): a nested
Collection or a list/tuple goes through `addListToCollection`, a plain source is
appended through `addUniqueSource` only when `dupWarning is True`, and appended
unconditionally otherwise. -/
def addArg [DecidableEq α] (dupWarning : DupFlag) (acc : List α) : Arg α → List α
  | .col c => addListToCollection acc c.sources dupWarning
  | .lst l => addListToCollection acc l dupWarning
  | .src s =>
    if dupWarning = .pyBool true then addUniqueSource s acc
    else acc ++ [s]

/-- `Collection.addSources` (collection.py line 164): folds the loop body over the
argument tuple, extending the existing member list. -/
def Collection.addSources [DecidableEq α] (col : Collection α) (sources : List (Arg α))
    (dupWarning : DupFlag) : Collection α :=
  ⟨sources.foldl (addArg dupWarning) col.sources⟩

/-- `Collection.__init__` (collection.py line 75): starts from `self.sources = []`
and runs the same loop as `addSources` (the Python duplicates the loop body
verbatim; the comment in the source says so). -/
def Collection.init [DecidableEq α] (sources : List (Arg α)) (dupWarning : DupFlag) :
    Collection α :=
  Collection.addSources ⟨[]⟩ sources dupWarning

/-- An exception raised by `removeSource`: Python `IndexError` from `list.pop` or
`ValueError` from `list.remove`. -/
inductive RemErr where
  | indexError
  | valueError
deriving DecidableEq

/-- Python index arithmetic for `list.pop(i)`: a negative index counts from the
end. -/
def pyIndex (len : ℕ) (i : ℤ) : ℤ := if i < 0 then i + len else i

/-- `Collection.removeSource` (collection.py line 97): an `int` reference pops the
member at that index (`self.sources.pop(source_ref)`, negative indices count from
the end; the Python default argument is `-1`, the last member) and raises
`IndexError` when out of range; a source reference removes the first matching
entry (`self.sources.remove(source_ref)`) and returns it, raising `ValueError`
when absent.  The popped/removed source is returned unchanged and the member
list only shrinks — no source object is mutated. -/
def Collection.removeSource [DecidableEq α] (col : Collection α) :
    ℤ ⊕ α → Except RemErr (α × Collection α)
  | .inl i =>
    if h : 0 ≤ pyIndex col.sources.length i ∧
        pyIndex col.sources.length i < col.sources.length then
      .ok (col.sources.get ⟨(pyIndex col.sources.length i).toNat, by omega⟩,
        ⟨col.sources.eraseIdx (pyIndex col.sources.length i).toNat⟩)
    else
      .error .indexError
  | .inr s =>
    if s ∈ col.sources then .ok (s, ⟨col.sources.erase s⟩)
    else .error .valueError

/-- A rotation quaternion.  Modelled from the spec: a member's orientation state
(`angle`/`axis` in the Python attributes) is represented as the corresponding
rotation quaternion `(cos(θ/2), sin(θ/2)·k̂)`, as §4.1 of the spec explicitly
permits for `composeOrientation`. -/
structure Quat where
  w : ℚ
  x : ℚ
  y : ℚ
  z : ℚ
deriving DecidableEq

/-- Hamilton product of quaternions: the composition of two rotations
(`composeOrientation` of the spec). -/
def qmul (a b : Quat) : Quat :=
  ⟨a.w * b.w - a.x * b.x - a.y * b.y - a.z * b.z,
   a.w * b.x + a.x * b.w + a.y * b.z - a.z * b.y,
   a.w * b.y - a.x * b.z + a.y * b.w + a.z * b.x,
   a.w * b.z + a.x * b.y - a.y * b.x + a.z * b.w⟩

/-- Scalar multiple of a 3-vector. -/
def smul (a : ℚ) (v : Vec3) : Vec3 := ⟨a * v.x, a * v.y, a * v.z⟩

/-- Cross product of 3-vectors. -/
def cross (u v : Vec3) : Vec3 :=
  ⟨u.y * v.z - u.z * v.y, u.z * v.x - u.x * v.z, u.x * v.y - u.y * v.x⟩

/-- Dot product of 3-vectors. -/
def dotp (u v : Vec3) : ℚ := u.x * v.x + u.y * v.y + u.z * v.z

/-- Modelled from the spec: `angleAxisRotation` (magpylib/_lib/mathLibPrivate.py,
not under `src/`) rotates vector `v` about the unit axis `k` by the Rodrigues
formula `v·cosθ + (k×v)·sinθ + k·(k·v)·(1-cosθ)`.  Since `cos`/`sin` of the
degree angle are transcendental, the pair `(c, s) = (cos θ, sin θ)` enters as an
exact parameter. -/
def angleAxisRotation (c s : ℚ) (k v : Vec3) : Vec3 :=
  smul c v + smul s (cross k v) + smul ((1 - c) * dotp k v) k

/-- One rotation instruction `(angle, axis)` in the exact form the engine
consumes: `c = cos θ`, `s = sin θ`, the unit axis `k`, and the half-angle
quaternion `q` of the same rotation used for orientation composition. -/
structure RotStep where
  c : ℚ
  s : ℚ
  k : Vec3
  q : Quat

/-- The spec's `rotateVector(vector, angle, axis, anchor)` (§4.1): rotate
`v - anchor` about the axis and add the anchor back. -/
def rotateVector (r : RotStep) (v anchor : Vec3) : Vec3 :=
  angleAxisRotation r.c r.s r.k (v - anchor) + anchor

/-- A member as the transform broadcaster sees it: its world position and its
orientation state.  The kind-specific geometry is invariant under transforms and
therefore omitted. -/
structure PosedSource where
  position : Vec3
  orient : Quat
deriving DecidableEq

/-- Modelled from the spec: the member method `s.rotate(angle, axis, anchor)`
(defined on the source classes outside `src/`, §4.3 of the spec): when `anchor`
is the sentinel (the Python default is the string `'self.position'`, modelled as
`Option.none`) the anchor used is the member's own current position; the position
is updated through `rotateVector` about that anchor and the orientation is
composed with the incremental rotation.  One algorithm parameterised by the
optional anchor override, as the spec demands. -/
def PosedSource.rotate (m : PosedSource) (r : RotStep) (anchor : Option Vec3) :
    PosedSource :=
  { position := rotateVector r m.position (anchor.getD m.position),
    orient := qmul r.q m.orient }

/-- `Collection.rotate` (collection.py line 279): applies the member rotation,
with the same (possibly defaulted) anchor, to every member. -/
def Collection.rotate (col : Collection PosedSource) (r : RotStep)
    (anchor : Option Vec3) : Collection PosedSource :=
  ⟨col.sources.map (fun s => s.rotate r anchor)⟩

instance [DecidableEq ε] [DecidableEq α] : DecidableEq (Except ε α)
  | .error e, .error f =>
    decidable_of_iff (e = f) ⟨fun h => by rw [h], fun h => by cases h; rfl⟩
  | .error _, .ok _ => .isFalse fun h => Except.noConfusion h
  | .ok _, .error _ => .isFalse fun h => Except.noConfusion h
  | .ok a, .ok b =>
    decidable_of_iff (a = b) ⟨fun h => by rw [h], fun h => by cases h; rfl⟩

/-! Helper lemmas. -/

@[simp] theorem Vec3.add_def (u v : Vec3) :
    u + v = ⟨u.x + v.x, u.y + v.y, u.z + v.z⟩ := rfl

@[simp] theorem Vec3.sub_def (u v : Vec3) :
    u - v = ⟨u.x - v.x, u.y - v.y, u.z - v.z⟩ := rfl

theorem Vec3.add_assoc (u v w : Vec3) : u + v + w = u + (v + w) := by
  cases u; cases v; cases w
  simp [Vec3.add_def]
  exact ⟨by ring, by ring, by ring⟩

theorem Vec3.zero_add (v : Vec3) : vzero + v = v := by
  cases v; simp [vzero, Vec3.add_def]

theorem Vec3.add_zero (v : Vec3) : v + vzero = v := by
  cases v; simp [vzero, Vec3.add_def]

theorem vecSum_nil : vecSum [] = vzero := rfl

theorem vecSum_cons (v : Vec3) (l : List Vec3) : vecSum (v :: l) = v + vecSum l := by
  simp [vecSum, Vec3.add_def]

theorem vecSum_singleton (v : Vec3) : vecSum [v] = v := by
  rw [vecSum_cons, vecSum_nil, Vec3.add_zero]

theorem foldl_add_eq_vecSum (l : List Vec3) (v : Vec3) :
    l.foldl (· + ·) v = v + vecSum l := by
  induction l generalizing v with
  | nil => rw [List.foldl_nil, vecSum_nil, Vec3.add_zero]
  | cons a as ih =>
    rw [List.foldl_cons, ih, vecSum_cons, Vec3.add_assoc]

theorem pySum_of_ne_nil (l : List Vec3) (h : l ≠ []) : pySum l = .vec (vecSum l) := by
  cases l with
  | nil => exact absurd rfl h
  | cons v vs => rw [pySum, foldl_add_eq_vecSum, vecSum_cons]

theorem listComp_of_forall_ok (f : α → Except ε β) (g : α → β) (l : List α)
    (h : ∀ a ∈ l, f a = .ok (g a)) : listComp f l = .ok (l.map g) := by
  induction l with
  | nil => rfl
  | cons a as ih =>
    rw [listComp, h a (List.mem_cons_self a as), ih fun b hb => h b (List.mem_cons_of_mem a hb)]
    rfl

theorem listComp_error (f : α → Except ε β) (l : List α)
    (h : ∃ a ∈ l, ∃ e, f a = .error e) :
    ∃ e, listComp f l = .error e ∧ ∃ a ∈ l, f a = .error e := by
  induction l with
  | nil => obtain ⟨a, ha, _⟩ := h; exact absurd ha (List.not_mem_nil a)
  | cons a as ih =>
    rw [listComp]
    cases hfa : f a with
    | error e => exact ⟨e, rfl, a, List.mem_cons_self a as, hfa⟩
    | ok b =>
      obtain ⟨a0, ha0, e0, he0⟩ := h
      have has : ∃ a ∈ as, ∃ e, f a = .error e := by
        rcases List.mem_cons.mp ha0 with h1 | h1
        · exact absurd hfa (by rw [h1] at he0; rw [he0]; simp)
        · exact ⟨a0, h1, e0, he0⟩
      obtain ⟨e, he, a1, ha1, he1⟩ := ih has
      rw [he]
      exact ⟨e, rfl, a1, List.mem_cons_of_mem a ha1, he1⟩

theorem addUniqueSource_nodup [DecidableEq α] (s : α) (l : List α) (h : l.Nodup) :
    (addUniqueSource s l).Nodup := by
  rw [addUniqueSource]
  split
  · exact h
  · next hmem => simpa [List.nodup_append] using ⟨h, hmem⟩

theorem addUniqueSource_mem_eq [DecidableEq α] (s : α) (l : List α) (h : s ∈ l) :
    addUniqueSource s l = l := by
  rw [addUniqueSource, if_pos h]

theorem foldl_addUniqueSource_nodup [DecidableEq α] (l acc : List α) (h : acc.Nodup) :
    (l.foldl (fun acc s => addUniqueSource s acc) acc).Nodup := by
  induction l generalizing acc with
  | nil => exact h
  | cons a as ih => exact ih _ (addUniqueSource_nodup a acc h)

theorem addListToCollection_nodup [DecidableEq α] (acc l : List α) (h : acc.Nodup) :
    (addListToCollection acc l (.pyBool true)).Nodup := by
  rw [addListToCollection, if_pos rfl]
  exact foldl_addUniqueSource_nodup l acc h

theorem addArg_nodup [DecidableEq α] (acc : List α) (a : Arg α) (h : acc.Nodup) :
    (addArg (.pyBool true) acc a).Nodup := by
  cases a with
  | col c => exact addListToCollection_nodup acc c.sources h
  | lst l => exact addListToCollection_nodup acc l h
  | src s => rw [addArg, if_pos rfl]; exact addUniqueSource_nodup s acc h

theorem foldl_addArg_nodup [DecidableEq α] (args : List (Arg α)) (acc : List α)
    (h : acc.Nodup) : (args.foldl (addArg (.pyBool true)) acc).Nodup := by
  induction args generalizing acc with
  | nil => exact h
  | cons a as ih => exact ih _ (addArg_nodup acc a h)

theorem Vec3.sub_self (v : Vec3) : v - v = vzero := by
  cases v; simp [Vec3.sub_def, vzero]

theorem angleAxisRotation_zero (c s : ℚ) (k : Vec3) :
    angleAxisRotation c s k vzero = vzero := by
  cases k
  simp [angleAxisRotation, smul, cross, dotp, vzero, Vec3.add_def]

theorem rotateVector_self (r : RotStep) (v : Vec3) : rotateVector r v v = v := by
  rw [rotateVector, Vec3.sub_self, angleAxisRotation_zero, Vec3.zero_add]

theorem getB_of_listComp_ok (col : Collection Source) (P : Vec3) (fields : List Vec3)
    (h : listComp (fun s => s.getB P) col.sources = .ok fields) :
    col.getB P = .ok (pySum fields) := by
  unfold Collection.getB
  rw [h]

theorem getB_of_listComp_error (col : Collection Source) (P : Vec3) (e : FieldErr)
    (h : listComp (fun s => s.getB P) col.sources = .error e) :
    col.getB P = .error e := by
  unfold Collection.getB
  rw [h]

theorem getBsweep_of_listComp_ok (col : Collection Source) (pos : List Vec3)
    (calcFields : List (List Vec3))
    (h : listComp (fun s => s.getBsweep pos) col.sources = .ok calcFields) :
    col.getBsweep pos = .ok ((List.range pos.length).map (fun p =>
      calcFields.foldl (fun acc f => acc + f.getD p vzero) vzero)) := by
  unfold Collection.getBsweep
  rw [h]

theorem getBsweep_of_listComp_error (col : Collection Source) (pos : List Vec3)
    (e : FieldErr)
    (h : listComp (fun s => s.getBsweep pos) col.sources = .error e) :
    col.getBsweep pos = .error e := by
  unfold Collection.getBsweep
  rw [h]

theorem foldl_getD_eq_vecSum (fields : List (List Vec3)) (p : ℕ) :
    fields.foldl (fun acc f => acc + f.getD p vzero) vzero
      = vecSum (fields.map (fun f => f.getD p vzero)) := by
  rw [← List.foldl_map (fun f : List Vec3 => f.getD p vzero) (· + ·) fields vzero,
    foldl_add_eq_vecSum, Vec3.zero_add]

theorem getD_map_lt (f : α → β) (l : List α) (i : ℕ) (h : i < l.length) (d : β) :
    (l.map f).getD i d = f (l.get ⟨i, h⟩) := by
  simp [List.getD_eq_getElem?_getD, List.getElem?_map, List.getElem?_eq_getElem h]

theorem eraseIdx_concat (l : List α) (a : α) : (l ++ [a]).eraseIdx l.length = l := by
  induction l with
  | nil => rfl
  | cons b bs ih => simp [List.eraseIdx, ih]

/-! The claims. -/

/-- Claim C1: for every collection with 1..N member sources whose field
evaluations at the query point `P` succeed, `Collection.getB` returns the
component-wise vector sum of each member's `evaluateFieldAt(P)` (`s.getB(pos)`)
over all members; in particular, a collection with exactly one member returns
that single member's contribution unmodified. -/
theorem c1_getB_is_member_sum (P : Vec3) :
    (∀ (srcs : List Source) (F : Source → Vec3),
      (∀ s ∈ srcs, s.getB P = .ok (F s)) → srcs ≠ [] →
      Collection.getB ⟨srcs⟩ P = .ok (.vec (vecSum (srcs.map F)))) ∧
    (∀ (s : Source) (v : Vec3), s.getB P = .ok v →
      Collection.getB ⟨[s]⟩ P = .ok (.vec v)) := by
  have main : ∀ (srcs : List Source) (F : Source → Vec3),
      (∀ s ∈ srcs, s.getB P = .ok (F s)) → srcs ≠ [] →
      Collection.getB ⟨srcs⟩ P = .ok (.vec (vecSum (srcs.map F))) := by
    intro srcs F hF hne
    have h1 : listComp (fun s => s.getB P) srcs = .ok (srcs.map F) :=
      listComp_of_forall_ok _ F srcs hF
    rw [getB_of_listComp_ok ⟨srcs⟩ P (srcs.map F) h1,
      pySum_of_ne_nil _ (by simpa using hne)]
  refine ⟨main, fun s v hv => ?_⟩
  have h2 := main [s] (fun _ => v) (by intro t ht; rw [List.mem_singleton.mp ht]; exact hv)
    (List.cons_ne_nil s [])
  rwa [List.map_singleton, vecSum_singleton] at h2

/-- Witness for C1: a two-member collection sums the members' contributions, and
a one-member collection returns exactly the member's value. -/
theorem c1_getB_is_member_sum_witness :
    Collection.getB ⟨[⟨fun _ => .ok ⟨1, 0, 0⟩⟩, ⟨fun _ => .ok ⟨0, 2, 0⟩⟩]⟩ ⟨5, 5, 5⟩ =
      .ok (.vec ⟨1, 2, 0⟩) ∧
    Collection.getB ⟨[⟨fun p => .ok p⟩]⟩ ⟨1, 2, 3⟩ = .ok (.vec ⟨1, 2, 3⟩) := by
  constructor
  · have h := (c1_getB_is_member_sum ⟨5, 5, 5⟩).1
      [⟨fun _ => .ok ⟨1, 0, 0⟩⟩, ⟨fun _ => .ok ⟨0, 2, 0⟩⟩]
      (fun s => match s.getB vzero with | .ok v => v | .error _ => vzero)
      (by
        intro s hs
        rcases List.mem_cons.mp hs with h1 | h1
        · rw [h1]
        · rw [List.mem_singleton.mp h1])
      (List.cons_ne_nil _ _)
    rw [h]
    norm_num [vecSum]
  · exact (c1_getB_is_member_sum ⟨1, 2, 3⟩).2 ⟨fun p => .ok p⟩ ⟨1, 2, 3⟩ rfl

/-- Claim C4 counterexample: on the empty collection `Collection.getB` is the
Python `sum` of an empty list, the integer scalar `0` — not the zero 3-vector
`[0,0,0]` the claim states. -/
theorem c4_counterexample :
    Collection.getB ⟨([] : List Source)⟩ ⟨1, 2, 3⟩ = .ok (.scalar 0) ∧
    PyNum.scalar 0 ≠ .vec vzero := by
  exact ⟨rfl, by decide⟩

/-- Claim C4 as amended: for every empty collection and every query point,
`Collection.getB` returns the Python integer scalar `0` (the result of `sum`
over an empty list), which is numerically zero but not a 3-vector. -/
theorem c4_amended_empty_getB_scalar_zero (p : Vec3) :
    Collection.getB ⟨([] : List Source)⟩ p = .ok (.scalar 0) := rfl

/-- Claim C9: for the empty collection and a non-empty list of query points,
`Collection.getBsweep` returns exactly one entry per input point, each the zero
vector `[0,0,0]` (unlike `getB`, which sums an empty list to the scalar `0`). -/
theorem c9_empty_sweep_zero_vectors (pos : List Vec3) (hpos : pos ≠ []) :
    Collection.getBsweep ⟨([] : List Source)⟩ pos =
      .ok (List.replicate pos.length vzero) := by
  have h1 : listComp (fun s => Source.getBsweep s pos) ([] : List Source) = .ok [] := rfl
  rw [getBsweep_of_listComp_ok ⟨[]⟩ pos [] h1]
  congr 1
  apply List.eq_replicate_iff.mpr
  refine ⟨by simp, ?_⟩
  intro x hx
  simp only [List.mem_map] at hx
  obtain ⟨p, _, hp⟩ := hx
  rw [← hp]
  rfl

/-- Witness for C9 at a concrete one-point sweep. -/
theorem c9_empty_sweep_zero_vectors_witness :
    Collection.getBsweep ⟨([] : List Source)⟩ [⟨1, 2, 3⟩] =
      .ok (List.replicate 1 vzero) :=
  c9_empty_sweep_zero_vectors [⟨1, 2, 3⟩] (by decide)

/-- Claim C3 counterexample: for the empty collection the sweep entry at index 0
is the zero 3-vector while `fieldAt` (`Collection.getB`) at the same point is the
Python scalar `0`, so `result[i] == fieldAt(collection, points[i])` fails there
as stated. -/
theorem c3_counterexample :
    Collection.getBsweep ⟨([] : List Source)⟩ [⟨1, 2, 3⟩] = .ok [vzero] ∧
    Collection.getB ⟨([] : List Source)⟩ ⟨1, 2, 3⟩ = .ok (.scalar 0) ∧
    PyNum.vec vzero ≠ PyNum.scalar 0 :=
  ⟨rfl, rfl, by decide⟩

/-- Claim C3 as amended: for every collection whose members' field evaluations
succeed, `Collection.getBsweep` returns one summed field vector per input point
in input order — entry `i` is the component-wise sum over members of the
member's batch contribution at `points[i]` — and for a NON-EMPTY collection that
entry equals `Collection.getB` at `points[i]` (for the empty collection the
sweep entry is the zero vector while `getB` returns the scalar `0`). -/
theorem c3_amended_sweep_index_correspondence (srcs : List Source) (pts : List Vec3)
    (F : Source → Vec3 → Vec3)
    (hF : ∀ s ∈ srcs, ∀ p, s.getB p = .ok (F s p)) :
    Collection.getBsweep ⟨srcs⟩ pts =
      .ok (pts.map (fun p => vecSum (srcs.map (fun s => F s p)))) ∧
    (srcs ≠ [] → ∀ p, Collection.getB ⟨srcs⟩ p =
      .ok (.vec (vecSum (srcs.map (fun s => F s p))))) := by
  constructor
  · have hsw : ∀ s ∈ srcs, Source.getBsweep s pts = .ok (pts.map (F s)) :=
      fun s hs => listComp_of_forall_ok _ (F s) pts (fun p _ => hF s hs p)
    have h1 : listComp (fun s => s.getBsweep pts) srcs =
        .ok (srcs.map (fun s => pts.map (F s))) :=
      listComp_of_forall_ok _ _ srcs hsw
    rw [getBsweep_of_listComp_ok ⟨srcs⟩ pts _ h1]
    congr 1
    simp only [foldl_getD_eq_vecSum, List.map_map]
    apply List.ext_getElem
    · simp
    · intro i h1 h2
      simp only [List.getElem_map, List.getElem_range]
      congr 1
      apply List.map_congr_left
      intro s _
      have hlen : i < pts.length := by simpa using h1
      simp only [Function.comp]
      rw [getD_map_lt (F s) pts i hlen vzero]
      simp [List.get_eq_getElem]
  · intro hne p
    have h1 : listComp (fun s => s.getB p) srcs = .ok (srcs.map (fun s => F s p)) :=
      listComp_of_forall_ok _ _ srcs (fun s hs => hF s hs p)
    rw [getB_of_listComp_ok ⟨srcs⟩ p _ h1, pySum_of_ne_nil _ (by simpa using hne)]

/-- Witness for the amended C3: a one-member collection (the member's field is
the identity map) swept over two points returns those points in order, and
`getB` at the second point agrees with the sweep entry. -/
theorem c3_amended_sweep_index_correspondence_witness :
    Collection.getBsweep ⟨[⟨fun p => .ok p⟩]⟩ [⟨1, 0, 0⟩, ⟨0, 1, 0⟩] =
      .ok [⟨1, 0, 0⟩, ⟨0, 1, 0⟩] ∧
    Collection.getB ⟨[⟨fun p => .ok p⟩]⟩ ⟨0, 1, 0⟩ = .ok (.vec ⟨0, 1, 0⟩) := by
  have h := c3_amended_sweep_index_correspondence [⟨fun p => .ok p⟩]
    [⟨1, 0, 0⟩, ⟨0, 1, 0⟩] (fun _ p => p)
    (by intro s hs p; rw [List.mem_singleton.mp hs])
  constructor
  · rw [h.1]
    simp [vecSum_singleton]
  · rw [h.2 (List.cons_ne_nil _ _) ⟨0, 1, 0⟩]
    simp [vecSum_singleton]

/-- Claim C8: a member exception during `Collection.getB` or
`Collection.getBsweep` makes the whole call fail with a member's error — no
partial result is returned (the return type `Except` makes a call either a
fully computed result or a raised error). -/
theorem c8_error_propagation (srcs : List Source) (pts : List Vec3) (P : Vec3) :
    ((∃ s ∈ srcs, ∃ e, s.getB P = .error e) →
      ∃ e, Collection.getB ⟨srcs⟩ P = .error e ∧ ∃ s ∈ srcs, s.getB P = .error e) ∧
    ((∃ s ∈ srcs, ∃ e, Source.getBsweep s pts = .error e) →
      ∃ e, Collection.getBsweep ⟨srcs⟩ pts = .error e ∧
        ∃ s ∈ srcs, Source.getBsweep s pts = .error e) := by
  constructor
  · intro h
    obtain ⟨e, he, hs⟩ := listComp_error (fun s => s.getB P) srcs h
    exact ⟨e, getB_of_listComp_error ⟨srcs⟩ P e he, hs⟩
  · intro h
    obtain ⟨e, he, hs⟩ := listComp_error (fun s => s.getBsweep pts) srcs h
    exact ⟨e, getBsweep_of_listComp_error ⟨srcs⟩ pts e he, hs⟩

/-- Witness for C8: a collection holding one always-failing member fails both
`getB` and `getBsweep` with that member's error. -/
theorem c8_error_propagation_witness :
    Collection.getB ⟨[⟨fun _ => .error ⟨7⟩⟩]⟩ ⟨1, 2, 3⟩ = .error ⟨7⟩ ∧
    Collection.getBsweep ⟨[⟨fun _ => .error ⟨7⟩⟩]⟩ [⟨1, 2, 3⟩] = .error ⟨7⟩ := by
  have h := c8_error_propagation [⟨fun _ => .error ⟨7⟩⟩] [⟨1, 2, 3⟩] ⟨1, 2, 3⟩
  constructor
  · obtain ⟨e, he, s, hs, hse⟩ := h.1 ⟨_, List.mem_cons_self _ _, ⟨7⟩, rfl⟩
    rw [List.mem_singleton.mp hs] at hse
    have h7 : (Except.error ⟨7⟩ : Except FieldErr Vec3) = .error e := hse
    cases h7
    exact he
  · obtain ⟨e, he, s, hs, hse⟩ := h.2 ⟨_, List.mem_cons_self _ _, ⟨7⟩, rfl⟩
    rw [List.mem_singleton.mp hs] at hse
    have h7 : (Except.error ⟨7⟩ : Except FieldErr (List Vec3)) = .error e := hse
    cases h7
    exact he

/-- Claim C2: broadcasting `rotate` with the default self-anchor leaves every
member's position unchanged and composes every member's orientation with the
incremental rotation; with an explicit anchor `P` every member's position orbits
about `P` (`rotateVector(position, angle, axis, P)`) and its orientation is
composed the same way.  The final two conjuncts exhibit, at the concrete
rotation with `cos θ = -7/25`, `sin θ = 24/25` about the y axis (half-angle
quaternion `(3/5, 0, 4/5, 0)`) applied to a member posed at `[2,0,0]` with
identity orientation, that the self-anchored rotation really changes the
orientation while keeping the position, and the origin-anchored rotation really
changes both. -/
theorem c2_rotate_anchor_semantics (r : RotStep) (col : Collection PosedSource) :
    ((Collection.rotate col r none).sources =
      col.sources.map (fun m => ⟨m.position, qmul r.q m.orient⟩)) ∧
    (∀ P, (Collection.rotate col r (some P)).sources =
      col.sources.map (fun m =>
        ⟨angleAxisRotation r.c r.s r.k (m.position - P) + P, qmul r.q m.orient⟩)) ∧
    ((PosedSource.rotate ⟨⟨2, 0, 0⟩, ⟨1, 0, 0, 0⟩⟩
        ⟨-7/25, 24/25, ⟨0, 1, 0⟩, ⟨3/5, 0, 4/5, 0⟩⟩ none).position = ⟨2, 0, 0⟩ ∧
      (PosedSource.rotate ⟨⟨2, 0, 0⟩, ⟨1, 0, 0, 0⟩⟩
        ⟨-7/25, 24/25, ⟨0, 1, 0⟩, ⟨3/5, 0, 4/5, 0⟩⟩ none).orient ≠ ⟨1, 0, 0, 0⟩) ∧
    ((PosedSource.rotate ⟨⟨2, 0, 0⟩, ⟨1, 0, 0, 0⟩⟩
        ⟨-7/25, 24/25, ⟨0, 1, 0⟩, ⟨3/5, 0, 4/5, 0⟩⟩ (some vzero)).position ≠ ⟨2, 0, 0⟩ ∧
      (PosedSource.rotate ⟨⟨2, 0, 0⟩, ⟨1, 0, 0, 0⟩⟩
        ⟨-7/25, 24/25, ⟨0, 1, 0⟩, ⟨3/5, 0, 4/5, 0⟩⟩ (some vzero)).orient ≠ ⟨1, 0, 0, 0⟩) := by
  refine ⟨?_, ?_, ⟨?_, ?_⟩, ⟨?_, ?_⟩⟩
  · apply List.map_congr_left
    intro m _
    simp [PosedSource.rotate, rotateVector_self]
  · intro P
    apply List.map_congr_left
    intro m _
    simp [PosedSource.rotate, rotateVector]
  · simp [PosedSource.rotate, rotateVector_self]
  · norm_num [PosedSource.rotate, qmul]
  · norm_num [PosedSource.rotate, rotateVector, angleAxisRotation, smul, cross, dotp,
      vzero, Vec3.sub_def, Vec3.add_def]
  · norm_num [PosedSource.rotate, qmul]

/-- Witness for C2 at a one-member collection and the concrete rotation of the
theorem's non-degeneracy conjuncts. -/
theorem c2_rotate_anchor_semantics_witness :
    (Collection.rotate ⟨[⟨⟨2, 0, 0⟩, ⟨1, 0, 0, 0⟩⟩]⟩
      ⟨-7/25, 24/25, ⟨0, 1, 0⟩, ⟨3/5, 0, 4/5, 0⟩⟩ none).sources =
      [⟨⟨2, 0, 0⟩, qmul ⟨3/5, 0, 4/5, 0⟩ ⟨1, 0, 0, 0⟩⟩] ∧
    (Collection.rotate ⟨[⟨⟨2, 0, 0⟩, ⟨1, 0, 0, 0⟩⟩]⟩
      ⟨-7/25, 24/25, ⟨0, 1, 0⟩, ⟨3/5, 0, 4/5, 0⟩⟩ (some vzero)).sources =
      [⟨angleAxisRotation (-7/25) (24/25) ⟨0, 1, 0⟩ (⟨2, 0, 0⟩ - vzero) + vzero,
        qmul ⟨3/5, 0, 4/5, 0⟩ ⟨1, 0, 0, 0⟩⟩] := by
  have h := c2_rotate_anchor_semantics ⟨-7/25, 24/25, ⟨0, 1, 0⟩, ⟨3/5, 0, 4/5, 0⟩⟩
    ⟨[⟨⟨2, 0, 0⟩, ⟨1, 0, 0, 0⟩⟩]⟩
  exact ⟨h.1, h.2.1 vzero⟩

/-- Claim C5 counterexample: with the default duplicate check, passing the same
source reference twice (`a = b`, here the reference `0`) makes
`Collection(Collection(a, b), c)` produce `[a, c]`, not `[a, b, c]`, because the
duplicate is warn-and-skipped — so the claim fails when quantified over all
(possibly aliased) sources. -/
theorem c5_counterexample :
    (Collection.init [Arg.col (Collection.init [Arg.src 0, Arg.src 0] (.pyBool true)),
      Arg.src 1] (.pyBool true)).sources = [0, 1] ∧
    ([0, 1] : List ℕ) ≠ [0, 0, 1] :=
  ⟨rfl, by decide⟩

/-- Claim C5 as amended: for pairwise DISTINCT source references `a`, `b`, `c`,
`Collection(Collection(a,b), c)` yields exactly the member list `[a, b, c]` —
the inner collection's members are inserted directly (no `Collection` value can
appear as a member: the member list holds source references by type) — and the
same flattening holds for a list/tuple argument and for `addSources` on an
existing collection. -/
theorem c5_amended_flattening {α : Type} [DecidableEq α] (a b c : α)
    (hab : a ≠ b) (hac : a ≠ c) (hbc : b ≠ c) :
    (Collection.init [Arg.col (Collection.init [Arg.src a, Arg.src b] (.pyBool true)),
      Arg.src c] (.pyBool true)).sources = [a, b, c] ∧
    (Collection.init [Arg.lst [a, b], Arg.src c] (.pyBool true)).sources = [a, b, c] ∧
    ((Collection.init [Arg.src c] (.pyBool true)).addSources
      [Arg.col (Collection.init [Arg.src a, Arg.src b] (.pyBool true))]
      (.pyBool true)).sources = [c, a, b] := by
  refine ⟨?_, ?_, ?_⟩ <;>
    simp [Collection.init, Collection.addSources, addArg, addListToCollection,
      addUniqueSource, Ne.symm hab, Ne.symm hac, Ne.symm hbc, hab, hac, hbc]

/-- Witness for the amended C5 at the concrete distinct references 0, 1, 2. -/
theorem c5_amended_flattening_witness :
    (Collection.init [Arg.col (Collection.init [Arg.src 0, Arg.src 1] (.pyBool true)),
      Arg.src 2] (.pyBool true)).sources = [0, 1, 2] ∧
    (Collection.init [Arg.lst [0, 1], Arg.src 2] (.pyBool true)).sources = [0, 1, 2] ∧
    ((Collection.init [Arg.src (2 : ℕ)] (.pyBool true)).addSources
      [Arg.col (Collection.init [Arg.src 0, Arg.src 1] (.pyBool true))]
      (.pyBool true)).sources = [2, 0, 1] :=
  c5_amended_flattening 0 1 2 (by decide) (by decide) (by decide)

/-- Claim C6: with the duplicate check enabled, adding an already-present source
reference leaves exactly one occurrence of it (the add is warn-and-skipped, the
member list is unchanged), and every collection built by construction and
extension with the check enabled has duplicate-free members — a reference never
appears more than once. -/
theorem c6_uniqueness {α : Type} [DecidableEq α] :
    (∀ (col : Collection α) (s : α), col.sources.Nodup → s ∈ col.sources →
      (col.addSources [Arg.src s] (.pyBool true)).sources = col.sources ∧
      (col.addSources [Arg.src s] (.pyBool true)).sources.count s = 1) ∧
    (∀ args : List (Arg α), (Collection.init args (.pyBool true)).sources.Nodup) ∧
    (∀ (col : Collection α) (args : List (Arg α)), col.sources.Nodup →
      (col.addSources args (.pyBool true)).sources.Nodup) := by
  refine ⟨?_, ?_, ?_⟩
  · intro col s hnd hmem
    have h1 : (col.addSources [Arg.src s] (.pyBool true)).sources = col.sources := by
      simp [Collection.addSources, addArg, addUniqueSource_mem_eq s col.sources hmem]
    exact ⟨h1, h1 ▸ List.count_eq_one_of_mem hnd hmem⟩
  · intro args
    exact foldl_addArg_nodup args [] List.nodup_nil
  · intro col args h
    exact foldl_addArg_nodup args col.sources h

/-- Witness for C6: re-adding the member `0` of `[0, 1]` keeps `[0, 1]` with a
single occurrence of `0`, and construction/extension examples stay
duplicate-free. -/
theorem c6_uniqueness_witness :
    ((⟨[0, 1]⟩ : Collection ℕ).addSources [Arg.src 0] (.pyBool true)).sources = [0, 1] ∧
    ((⟨[0, 1]⟩ : Collection ℕ).addSources [Arg.src 0] (.pyBool true)).sources.count 0 = 1 ∧
    (Collection.init [Arg.src (0 : ℕ), Arg.src 0, Arg.src 1] (.pyBool true)).sources.Nodup ∧
    ((⟨[5]⟩ : Collection ℕ).addSources [Arg.lst [5, 6]] (.pyBool true)).sources.Nodup := by
  refine ⟨(c6_uniqueness.1 ⟨[0, 1]⟩ 0 (by decide) (by decide)).1,
    (c6_uniqueness.1 ⟨[0, 1]⟩ 0 (by decide) (by decide)).2,
    c6_uniqueness.2.1 [Arg.src 0, Arg.src 0, Arg.src 1],
    c6_uniqueness.2.2 ⟨[5]⟩ [Arg.lst [5, 6]] (by decide)⟩

/-- Claim C7: `removeSource` with an integer pops and returns the member at that
index (a negative index counts from the end; the Python default `-1` pops the
last member) and raises `IndexError` out of range; with a source reference it
removes the first matching entry, returns it, and raises `ValueError` when the
source is not a member.  On success the remaining members are a sublist of the
originals (insertion order preserved), and the returned source is the stored
reference itself — no source object is mutated. -/
theorem c7_removeSource {α : Type} [DecidableEq α] (col : Collection α) :
    (∀ (i : ℕ) (h : i < col.sources.length),
      col.removeSource (.inl i) =
        .ok (col.sources.get ⟨i, h⟩, ⟨col.sources.eraseIdx i⟩)) ∧
    (∀ i : ℕ, 0 < i → i ≤ col.sources.length →
      ∀ h : col.sources.length - i < col.sources.length,
      col.removeSource (.inl (-(i : ℤ))) =
        .ok (col.sources.get ⟨col.sources.length - i, h⟩,
          ⟨col.sources.eraseIdx (col.sources.length - i)⟩)) ∧
    (∀ (l : List α) (a : α), col.sources = l ++ [a] →
      col.removeSource (.inl (-1)) = .ok (a, ⟨l⟩)) ∧
    (∀ i : ℤ, i < -(col.sources.length : ℤ) ∨ (col.sources.length : ℤ) ≤ i →
      col.removeSource (.inl i) = .error .indexError) ∧
    (∀ s ∈ col.sources, col.removeSource (.inr s) = .ok (s, ⟨col.sources.erase s⟩)) ∧
    (∀ s, s ∉ col.sources → col.removeSource (.inr s) = .error .valueError) ∧
    (∀ (ref : ℤ ⊕ α) (s : α) (col2 : Collection α),
      col.removeSource ref = .ok (s, col2) → col2.sources.Sublist col.sources) := by
  have key : ∀ (i : ℤ) (j : ℕ) (hj : j < col.sources.length),
      pyIndex col.sources.length i = j →
      col.removeSource (.inl i) =
        .ok (col.sources.get ⟨j, hj⟩, ⟨col.sources.eraseIdx j⟩) := by
    intro i j hj heq
    have hc : 0 ≤ pyIndex col.sources.length i ∧
        pyIndex col.sources.length i < (col.sources.length : ℤ) := by
      constructor <;> omega
    rw [Collection.removeSource, dif_pos hc]
    have ht : (pyIndex col.sources.length i).toNat = j := by omega
    simp only [ht]
  refine ⟨?_, ?_, ?_, ?_, ?_, ?_, ?_⟩
  · intro i h
    exact key i i h (by unfold pyIndex; omega)
  · intro i h1 h2 h
    exact key (-(i : ℤ)) (col.sources.length - i) h (by unfold pyIndex; omega)
  · intro l a hcol
    obtain ⟨srcs⟩ := col
    simp only at hcol
    subst hcol
    have hpi : pyIndex (l ++ [a]).length (-1) = (l.length : ℤ) := by
      unfold pyIndex
      simp
    have h := key (-1) l.length (by simp) hpi
    rw [h]
    simp only [List.get_eq_getElem, eraseIdx_concat, Except.ok.injEq, Prod.mk.injEq]
    exact ⟨List.getElem_concat_length l a l.length rfl (by simp), trivial⟩
  · intro i hi
    rw [Collection.removeSource, dif_neg (by unfold pyIndex; split <;> omega)]
  · intro s hs
    rw [Collection.removeSource, if_pos hs]
  · intro s hs
    rw [Collection.removeSource, if_neg hs]
  · intro ref s col2 h
    cases ref with
    | inl i =>
      rw [Collection.removeSource] at h
      by_cases hc : 0 ≤ pyIndex col.sources.length i ∧
          pyIndex col.sources.length i < (col.sources.length : ℤ)
      · rw [dif_pos hc] at h
        simp only [Except.ok.injEq, Prod.mk.injEq] at h
        rw [← h.2]
        exact List.eraseIdx_sublist _ _
      · rw [dif_neg hc] at h
        exact Except.noConfusion h
    | inr t =>
      rw [Collection.removeSource] at h
      by_cases hc : t ∈ col.sources
      · rw [if_pos hc] at h
        simp only [Except.ok.injEq, Prod.mk.injEq] at h
        rw [← h.2]
        exact List.erase_sublist t col.sources
      · rw [if_neg hc] at h
        exact Except.noConfusion h

/-- Witness for C7 on the collection `[10, 20, 30]`: popping index 1, index
`-3`, the default `-1`, an out-of-range index, removing the member `20`, and
removing the absent `99`. -/
theorem c7_removeSource_witness :
    (⟨[10, 20, 30]⟩ : Collection ℕ).removeSource (.inl 1) = .ok (20, ⟨[10, 30]⟩) ∧
    (⟨[10, 20, 30]⟩ : Collection ℕ).removeSource (.inl (-3)) = .ok (10, ⟨[20, 30]⟩) ∧
    (⟨[10, 20, 30]⟩ : Collection ℕ).removeSource (.inl (-1)) = .ok (30, ⟨[10, 20]⟩) ∧
    (⟨[10, 20, 30]⟩ : Collection ℕ).removeSource (.inl 3) = .error .indexError ∧
    (⟨[10, 20, 30]⟩ : Collection ℕ).removeSource (.inr 20) = .ok (20, ⟨[10, 30]⟩) ∧
    (⟨[10, 20, 30]⟩ : Collection ℕ).removeSource (.inr 99) = .error .valueError ∧
    ([10, 20] : List ℕ).Sublist [10, 20, 30] := by
  have h := c7_removeSource (⟨[10, 20, 30]⟩ : Collection ℕ)
  have h3 : (⟨[10, 20, 30]⟩ : Collection ℕ).removeSource (.inl (-1)) =
      .ok (30, ⟨[10, 20]⟩) := h.2.2.1 [10, 20] 30 rfl
  refine ⟨h.1 1 (by decide), ?_, h3,
    h.2.2.2.1 3 (by decide), h.2.2.2.2.1 20 (by decide), h.2.2.2.2.2.1 99 (by decide),
    h.2.2.2.2.2.2 (.inl (-1)) 30 ⟨[10, 20]⟩ h3⟩
  have h2 := h.2.1 3 (by decide) (by decide) (by decide)
  exact h2

/-- Claim C10: the duplicate check is applied only when `dupWarning` is exactly
the boolean `True`: for every other value (`False` or any non-boolean, truthy
or not) a plain source argument is appended unconditionally by `__init__` and
`addSources`, so the same reference can occur twice in the member list. -/
theorem c10_dup_check_requires_pyTrue {α : Type} [DecidableEq α] (d : DupFlag)
    (hd : d ≠ .pyBool true) :
    (∀ (col : Collection α) (s : α),
      (col.addSources [Arg.src s] d).sources = col.sources ++ [s]) ∧
    (∀ s : α, (Collection.init [Arg.src s, Arg.src s] d).sources = [s, s]) ∧
    (∀ s : α, (Collection.init [Arg.src s, Arg.src s] d).sources.count s = 2) := by
  have h1 : ∀ (acc : List α) (s : α), addArg d acc (Arg.src s) = acc ++ [s] := by
    intro acc s
    rw [addArg, if_neg hd]
  have h2 : ∀ s : α, (Collection.init [Arg.src s, Arg.src s] d).sources = [s, s] := by
    intro s
    simp [Collection.init, Collection.addSources, h1]
  refine ⟨?_, h2, ?_⟩
  · intro col s
    simp [Collection.addSources, h1]
  · intro s
    rw [h2]
    simp [List.count_cons]

/-- Witness for C10 with the truthy non-`True` flag `1` (`other 1`): re-adding
the present member `0` appends it anyway, and construction from `[0, 0]` keeps
both occurrences. -/
theorem c10_dup_check_requires_pyTrue_witness :
    ((⟨[0]⟩ : Collection ℕ).addSources [Arg.src 0] (.other 1)).sources = [0, 0] ∧
    (Collection.init [Arg.src (0 : ℕ), Arg.src 0] (.other 1)).sources = [0, 0] ∧
    (Collection.init [Arg.src (0 : ℕ), Arg.src 0] (.other 1)).sources.count 0 = 2 := by
  have h := @c10_dup_check_requires_pyTrue ℕ instDecidableEqNat (DupFlag.other 1) (by decide)
  exact ⟨h.1 ⟨[0]⟩ 0, h.2.1 0, h.2.2 0⟩

end Magpylib
